import Mathlib

/-!
Verification of the movies-advisor scraper (`movies_finder.py`, legacy and
`movies_advisor` variants, plus `utils/log.py`) against its specification.

Modelling conventions (shallow embedding):
* Python strings are modelled as `List Char` (`Str`), one element per code
  point.  Python's `str.lower`, `str.isdigit` and whitespace stripping are
  modelled on the ASCII range (the inputs exercised here are ASCII).
* Fallible Python code is modelled with `Except PyErr`; an uncaught Python
  exception is `.error e`.
* Web pages are modelled as records holding exactly the pieces of the DOM
  that the scraper reads (`select`/`find` results as lists/options); a
  `find` that can return `None` is an `Option`, and indexing `xs[0]` on a
  possibly-empty select result is `List.head?` with an `IndexError` on
  `none`.
* The network is modelled as a total function from URL to page:
  `soup_from_url` catches `HTTPError` itself and still builds a soup from
  the response body, so fetching never raises in the model; pages with
  missing markup model both parse problems and error pages.
-/

/-- Python strings are lists of characters. -/
abbrev Str : Type := List Char

/-- Convert a Lean string literal to the `List Char` model. -/
def str (s : String) : Str := s.toList

/-- The Python exceptions that the modelled code can raise. -/
inductive PyErr : Type where
  | typeErr
  | attrErr
  | indexErr
  | valueErr
  | zeroDivErr
deriving DecidableEq

deriving instance DecidableEq for Except

/-- Characters treated as whitespace by Python's `str.strip()` (ASCII part). -/
def isPySpace (c : Char) : Bool :=
  c = ' ' || c = '\t' || c = '\n' || c = '\r' || c = '\x0b' || c = '\x0c'

/-- Python `str.strip()`: drop leading and trailing whitespace. -/
def pyStrip (s : Str) : Str :=
  ((s.dropWhile isPySpace).reverse.dropWhile isPySpace).reverse

/-- Python `str.lower()` (ASCII model). -/
def pyLower (s : Str) : Str := s.map Char.toLower

/-- Python `s.split(" ")`: split on every single space, keeping empty parts;
on the empty string it returns `[""]`, so the result is always nonempty. -/
def pySplitSpace : Str → List Str
  | [] => [[]]
  | c :: cs =>
    match pySplitSpace cs with
    | [] => [[c]]
    | g :: gs => if c = ' ' then [] :: g :: gs else (c :: g) :: gs

/-- Helper for `pyInt`: parse a nonempty ASCII digit sequence where single
underscores may stand between digits (Python `int` literal grouping).  The
`lastDigit` flag records whether the previous character was a digit. -/
def pyIntMagLoop : Str → Nat → Bool → Option Nat
  | [], acc, lastDigit => if lastDigit then some acc else none
  | c :: cs, acc, lastDigit =>
    if c.isDigit then pyIntMagLoop cs (acc * 10 + (c.toNat - 48)) true
    else if c = '_' && lastDigit then pyIntMagLoop cs acc false
    else none

/-- Python `int(s)` for a string argument: strip whitespace, optional sign,
then a digit sequence; `none` models a raised `ValueError` (ASCII model). -/
def pyInt (s : Str) : Option Int :=
  match pyStrip s with
  | [] => none
  | c :: rest =>
    if c = '+' then Option.map (fun n : Nat => (n : Int)) (pyIntMagLoop rest 0 false)
    else if c = '-' then Option.map (fun n : Nat => -(n : Int)) (pyIntMagLoop rest 0 false)
    else Option.map (fun n : Nat => (n : Int)) (pyIntMagLoop (c :: rest) 0 false)

/-- Python `s.split(p)[0]` for a nonempty pattern `p`: the part of `s`
before the first occurrence of `p` (all of `s` when `p` does not occur). -/
def splitFirstPart (p : Str) : Str → Str
  | [] => []
  | c :: cs =>
    if p ≠ [] ∧ p.isPrefixOf (c :: cs) = true then []
    else c :: splitFirstPart p cs

/-- Python's substring test `p in s` (also used to model `re`-free
containment checks): `p` occurs contiguously somewhere in `s`. -/
def isSubstring (p : Str) : Str → Bool
  | [] => p.isEmpty
  | c :: cs => p.isPrefixOf (c :: cs) || isSubstring p cs

/-- Fuelled worker for Python `str.replace`: replace non-overlapping
occurrences of `p` by `r`, scanning left to right.  Each step consumes at
least one character, so fuel `s.length` always suffices; the fuel-`0`
fallback is never reached from `pyReplace`. -/
def pyReplaceAux (p r : Str) : Nat → Str → Str
  | 0, s => s
  | _ + 1, [] => []
  | fuel + 1, c :: cs =>
    if p ≠ [] ∧ p.isPrefixOf (c :: cs) = true then
      r ++ pyReplaceAux p r fuel (cs.drop (p.length - 1))
    else
      c :: pyReplaceAux p r fuel cs

/-- Python `s.replace(p, r)` for nonempty `p` (all patterns used by the
scraper are nonempty). -/
def pyReplace (p r s : Str) : Str := pyReplaceAux p r s.length s

/-- Lines 291-303 of `clean_string` (`movies_advisor/movies_finder.py`):
the ordered chain of `str.replace` rewrites followed by `.strip()`.  The
second apostrophe rewrite and the `"',"` rewrite are kept even though the
first rewrite already removed every apostrophe, mirroring the source. -/
def cleanReplacements (s : Str) : Str :=
  let t1 := pyReplace (str "\"") (str " ") s
  let t2 := pyReplace (str "'") (str " ") t1
  let t3 := pyReplace (str "',") (str ", ") t2
  let t4 := pyReplace (str "'") (str "") t3
  let t5 := pyReplace (str " (...) ") (str ". ") t4
  let t6 := pyReplace (str " (…) ") (str ". ") t5
  let t7 := pyReplace (str "“") (str "") t6
  let t8 := pyReplace (str "..") (str ". ") t7
  let t9 := pyReplace (str " ,") (str ", ") t8
  let t10 := pyReplace (str "  ") (str " ") t9
  pyStrip t10

/-- Lines 305-311 of `clean_string`: removal of a trailing
`"(FILMAFFINITY)"` (`string[:-14]` then `strip`) and of a trailing
`"aka"` (`string[:-3]` then `strip`). -/
def cleanTrimSuffixes (t11 : Str) : Str :=
  let t12 :=
    if (str "(FILMAFFINITY)").isSuffixOf t11 then pyStrip (t11.take (t11.length - 14))
    else t11
  if (str "aka").isSuffixOf t12 then pyStrip (t12.take (t12.length - 3)) else t12

/-- `MoviesFinder.clean_string` (`movies_advisor/movies_finder.py`,
lines 276-311): the replace chain and strip, then the suffix trims. -/
def clean_string (s : Str) : Str := cleanTrimSuffixes (cleanReplacements s)

/-- The critics block of `get_useful_information_from_filmaffinity`
(`movies_advisor/movies_finder.py`, lines 167-184): when the select result
is nonempty, keep the entries whose enumeration index is below
`number_critics`, clean each, force a trailing period, and cut everything
from a `"Rating"` label on; when the select result is empty, the critics
value is Python `None`, modelled as `none`. -/
def processCritics (number_critics : Nat) (critics_tags : List Str) : Option (List Str) :=
  if critics_tags ≠ [] then
    let critics := (critics_tags.enum.filter (fun p => p.1 < number_critics)).map
      (fun p => clean_string (pyStrip p.2))
    let critics := critics.map (fun c => if (str ".").isSuffixOf c then c else c ++ str ".")
    let critics := critics.map (fun c =>
      if isSubstring (str "Rating") c then pyStrip (splitFirstPart (str "Rating") c) else c)
    some critics
  else none


/-- The cost structure of the `python-Levenshtein` library's `ratio`:
insertions and deletions cost 1, substitutions cost 2 (so the distance is
the indel distance used by `ratio`). -/
def levCost : Levenshtein.Cost Char Char ℕ :=
  ⟨fun _ => 1, fun _ => 1, fun a b => if a = b then 0 else 2⟩

/-- `Levenshtein.ratio(a, b)` of the `python-Levenshtein` library (the
external text-similarity collaborator): `(lensum - dist) / lensum` with
the substitution-cost-2 distance, and `1` when both strings are empty.
Modelled with exact rational arithmetic. -/
def levenshtein_ratio (a b : Str) : ℚ :=
  let lensum : ℕ := a.length + b.length
  if lensum = 0 then 1
  else ((lensum : ℚ) - ((levenshtein levCost a b : ℕ) : ℚ)) / (lensum : ℚ)

/-- `MoviesFinder.title_is_accurate` (`movies_advisor/movies_finder.py`,
lines 408-439) on its default path `use_levenshtein=True`, the only one
its callers use: true exactly when `Levenshtein.ratio` of the two titles
is at least `0.9`.  (The `use_levenshtein=False` branch would call
`difflib.SequenceMatcher` instead; no call site reaches it.) -/
def title_is_accurate (title original_title : Str) : Bool :=
  if levenshtein_ratio title original_title ≥ (0.9 : ℚ) then true else false

/-- `MoviesFinder.title_is_accurate` of the legacy copy
(`movies_finder.py`, lines 410-440): the fraction of `title`'s
space-separated words (lowercased) that occur as substrings of the
lowercased `original_title`, divided by the number of space-separated
words of `original_title`; Python's `/` raises `ZeroDivisionError` when
the denominator is zero. -/
def title_is_accurate_legacy (title original_title : Str) : Except PyErr Bool :=
  let words_in_original_title := (pySplitSpace title).map pyLower
  let count := (words_in_original_title.filter
    (fun w => isSubstring w (pyLower original_title))).length
  let denom := (pySplitSpace original_title).length
  if denom = 0 then .error .zeroDivErr
  else .ok (if ((count : ℚ) / (denom : ℚ)) ≥ (0.9 : ℚ) then true else false)

/-- Inner loop of the legacy `find_year_in_unformatted_text`
(`movies_finder.py`, lines 321-337): scan `for char_1 in string[cont+1:]`,
appending each character to `possible_year` until the first `')'`, where
`int(possible_year)` decides success; without a `')'` the accumulated
text is kept and the year is still unfound. -/
def lfyInner : Str → Str → Str × Bool
  | [], possible_year => (possible_year, false)
  | c :: cs, possible_year =>
    if c = ')' then
      if (pyInt possible_year).isSome then (possible_year, true) else ([], false)
    else lfyInner cs (possible_year ++ [c])

/-- Outer loop of the legacy `find_year_in_unformatted_text`: iterate the
characters of the whole string `s`, keeping the counter `cont` that is
only incremented on characters other than `'('`; on `'('` run the inner
scan over `s[cont+1:]`. -/
def lfyOuter (s : Str) : Str → Nat → Str → Bool → Str
  | [], _, possible_year, _ => possible_year
  | c :: cs, cont, possible_year, found_year =>
    if found_year then possible_year
    else if c = '(' then
      let p := lfyInner (s.drop (cont + 1)) possible_year
      lfyOuter s cs cont p.1 p.2
    else lfyOuter s cs (cont + 1) possible_year found_year

/-- Legacy `MoviesFinder.find_year_in_unformatted_text`
(`movies_finder.py`, lines 300-339): the character-scanning loop. -/
def find_year_legacy (s : Str) : Str := lfyOuter s s 0 [] false

/-- Scan to the first `')'`: `some (interior, rest)` splits off the
characters before the first `')'` and the characters after it. -/
def splitRParen : Str → Option (Str × Str)
  | [] => none
  | c :: cs =>
    if c = ')' then some ([], cs)
    else (splitRParen cs).map (fun p => (c :: p.1, p.2))

/-- Fuelled worker modelling `re.findall('\(.*?\)', s)`: at each `'('`,
lazily match to the first following `')'`; `.` does not cross a newline,
so a candidate whose interior holds `'\n'` fails and scanning resumes one
character further.  Matches are returned as their interiors (each full
match is `'(' :: interior ++ [')']`, and the caller's `stuff[1:-1]` is
exactly `interior`).  Fuel `s.length` suffices since scanning always
advances. -/
def parenGroupsAux : Nat → Str → List Str
  | 0, _ => []
  | _ + 1, [] => []
  | fuel + 1, c :: rest =>
    if c = '(' then
      match splitRParen rest with
      | some p =>
        if '\n' ∈ p.1 then parenGroupsAux fuel rest
        else p.1 :: parenGroupsAux fuel p.2
      | none => parenGroupsAux fuel rest
    else parenGroupsAux fuel rest

/-- The list of interiors of the regex matches of `'\(.*?\)'`. -/
def parenGroups (s : Str) : List Str := parenGroupsAux s.length s

/-- Python `str.isdigit` (ASCII model): nonempty and all digits. -/
def pyIsDigit (s : Str) : Bool := !s.isEmpty && s.all Char.isDigit

/-- Rewritten `MoviesFinder.find_year_in_unformatted_text`
(`movies_advisor/movies_finder.py`, lines 313-338): among the regex
matches of `'\(.*?\)'`, return the interior of the first one that
`isdigit` accepts, or the empty string (the loop with `break` and the
`possible_year = ""` initialisation is exactly a first-match search). -/
def find_year_regex (s : Str) : Str :=
  match (parenGroups s).find? (fun g => pyIsDigit g) with
  | some g => g
  | none => []


/-- Join words with a separator, as the source's `reduce(lambda a, b: a +
sep + b, words)` does on a nonempty word list. -/
def joinWith (sep : Str) (w : Str) (ws : List Str) : Str :=
  ws.foldl (fun a b => a ++ sep ++ b) w

/-- One `a[href]` element inside a Film Affinity search-result entry:
`get("title")` may be absent (`None`), `href` is present by the selector. -/
structure FALink where
  titleAttr : Option Str
  href : Str
deriving DecidableEq

/-- One Film Affinity search-result entry (`div` of class `"se-it mt"`):
the text of each `div[class="ye-w"]` and each `a[href]` element. -/
structure FAEntry where
  yeWTexts : List Str
  aHrefs : List FALink
deriving DecidableEq

/-- A Film Affinity page, holding exactly what the scraper reads: the
texts of `dl[class="movie-info"] > dd`, the optional
`dd[itemprop="description"]` text, the texts of
`div[itemprop="reviewBody"]`, and the search-result entries. -/
structure FAPage where
  movieInfoDds : List Str
  descriptionDd : Option Str
  reviewBodies : List Str
  seItems : List FAEntry
deriving DecidableEq

/-- The Film Affinity side of the network: a page for every URL
(`soup_from_url` catches `HTTPError` itself, so fetching is total). -/
structure FAEnv where
  fetch : Str → FAPage

/-- Search URL built by `get_useful_information_from_filmaffinity`
(`movies_advisor` variant): strip+lowercase each space-split word, join
with `'-'`, append the root and `"&stype=all"`. -/
def faSearchUrl (movie_name : Str) : Str :=
  let movie_name_words := (pySplitSpace movie_name).map (fun w => pyLower (pyStrip w))
  let parsed_movie_name :=
    match movie_name_words with
    | [] => []
    | w :: ws => if ws = [] then w else joinWith (str "-") w ws
  str "https://www.filmaffinity.com/en/search.php?stext=" ++ parsed_movie_name ++
    str "&stype=all"

/-- The disambiguation fallback loop of
`get_useful_information_from_filmaffinity` (`movies_advisor`, lines
135-154), run when the initial `information_tag[0]` raised `IndexError`:
for each candidate, `title_tag[0]` (`IndexError` if absent) and its
`title` attribute (`AttributeError` if `None` is stripped) are read; on an
exact case-insensitive title match the candidate year text is accepted
when it equals the query year as a string or both parse as integers at
distance at most 1; acceptance re-fetches the candidate's detail page and
re-extracts `information_tag[0]` from it (a fresh `IndexError` here is
not caught).  `ok none` is the loop running off the end. -/
def faFallback (env : FAEnv) (movie_name year : Str) :
    List FAEntry → Except PyErr (Option (Str × FAPage))
  | [] => .ok none
  | c :: cs =>
    match c.aHrefs.head? with
    | none => .error .indexErr
    | some t0 =>
      match t0.titleAttr with
      | none => .error .attrErr
      | some ta =>
        if pyLower (pyStrip ta) = pyLower movie_name then
          match c.yeWTexts.head? with
          | none => .error .indexErr
          | some y0 =>
            let condE : Except PyErr Bool :=
              if pyStrip y0 = year then .ok true
              else
                match pyInt year, pyInt (pyStrip y0) with
                | none, _ => .error .valueErr
                | some _, none => .error .valueErr
                | some yi, some ci => .ok (yi - 1 ≤ ci ∧ ci ≤ yi + 1)
            match condE with
            | .error e => .error e
            | .ok true =>
              let soup2 := env.fetch t0.href
              match soup2.movieInfoDds.head? with
              | none => .error .indexErr
              | some t => .ok (some (pyStrip t, soup2))
            | .ok false => faFallback env movie_name year cs
        else faFallback env movie_name year cs

/-- The per-movie record built by
`get_useful_information_from_filmaffinity` (its dictionary `d`). -/
structure FARecord where
  original_name : Str
  year : Str
  synopsis : Str
  critics : Option (List Str)
  imdb_rating : Option Str
deriving DecidableEq

/-- Tail of `get_useful_information_from_filmaffinity` after the original
name is resolved: clean the name, extract and clean the synopsis from the
current soup (`find` returning `None` makes `.text` raise
`AttributeError`), force its trailing period, and build the record with
the critics of the current soup. -/
def faAssemble (ncrit : Nat) (movie_year original_name : Str) (soup : FAPage) :
    Except PyErr FARecord :=
  let cleaned_name := clean_string original_name
  match soup.descriptionDd with
  | none => .error .attrErr
  | some d =>
    let synopsis := clean_string (pyStrip d)
    let synopsis := if (str ".").isSuffixOf synopsis then synopsis else synopsis ++ str "."
    .ok ⟨cleaned_name, movie_year, synopsis, processCritics ncrit soup.reviewBodies, none⟩

/-- `MoviesFinder.get_useful_information_from_filmaffinity`
(`movies_advisor/movies_finder.py`, lines 70-196): fetch the search page;
if the unique `information_tag[0]` exists take it, otherwise (the caught
`IndexError`) log and run the disambiguation fallback; when the fallback
finds nothing, `original_name` stays `""` and the search-page soup is
still the one scraped for synopsis and critics.  (The logger of the
`movies_advisor` package is not under `src/`; per the spec log writes
never fail the calling operation, so logging is a no-op here.) -/
def get_useful_information_from_filmaffinity (env : FAEnv) (ncrit : Nat)
    (movie_name movie_year : Str) : Except PyErr FARecord :=
  let soup := env.fetch (faSearchUrl movie_name)
  match soup.movieInfoDds.head? with
  | some t => faAssemble ncrit movie_year (pyStrip t) soup
  | none =>
    match faFallback env movie_name movie_year soup.seItems with
    | .error e => .error e
    | .ok (some p) => faAssemble ncrit movie_year p.1 p.2
    | .ok none => faAssemble ncrit movie_year [] soup

/-- An IMDb detail page: the optional `div.originalTitle` text, the
optional `span#titleYear` (holding the texts of its `a[href]` children),
and the optional `span[itemprop="ratingValue"]` text. -/
structure IMDBDetail where
  originalTitleDiv : Option Str
  titleYearTexts : Option (List Str)
  ratingValue : Option Str
deriving DecidableEq

/-- One IMDb search-result entry (`td.result_text`): its `a[href]` link
targets. -/
structure IMDBEntry where
  aHrefs : List Str
deriving DecidableEq

/-- The IMDb side of the network: the sign-in link of the sign-in page
(`none` models the missing `a.list-group-item` tag, whose `.get` raises
`AttributeError`), the search-result entries per search URL, and a detail
page per URL. -/
structure IMDBEnv where
  signinHref : Option Str
  searchEntries : Str → List IMDBEntry
  detail : Str → IMDBDetail

/-- `MoviesFinder.sign_in_to_imdb` (lines 382-406): fetch the sign-in
page, read the sign-in link (`AttributeError` when the tag is missing),
then POST the credentials; in the model the session carries no data. -/
def sign_in_to_imdb (env : IMDBEnv) : Except PyErr Unit :=
  match env.signinHref with
  | none => .error .attrErr
  | some _ => .ok ()

/-- Search URL built by `get_useful_information_from_imdb`: the
space-split words of the (already lowercased) original name joined with
`'+'`. -/
def imdbSearchUrl (original_movie_name : Str) : Str :=
  let movie_name_words := pySplitSpace original_movie_name
  let parsed_movie_name :=
    match movie_name_words with
    | [] => []
    | w :: ws => if ws = [] then w else joinWith (str "+") w ws
  str "https://www.imdb.com/find?q=" ++ parsed_movie_name ++ str "&ref_=nv_sr_sm"

/-- The title extracted from an IMDb detail page when `div.originalTitle`
exists: `.text.strip().lower().split("(original title)")[0].strip()`. -/
def imdbProcessedName (raw : Str) : Str :=
  pyStrip (splitFirstPart (str "(original title)") (pyLower (pyStrip raw)))

/-- Body of the per-entry `try` block of `get_useful_information_from_imdb`
(lines 245-272).  When `div.originalTitle` is missing, the inner bare
`except` falls back to `soup.find("div", ...).select("h1").text`, and
`.text` on a `select` result list always raises `AttributeError`, so the
entry errors.  The year is read from `span#titleYear`'s first `a[href]`;
the acceptance test is `title_is_accurate(name, original) and year ==
movie_year`; only on acceptance is the rating read.  `ok none` means the
tests failed and the loop moves on. -/
def imdbTryBody (original_movie_name movie_year : Str) (d : IMDBDetail) :
    Except PyErr (Option Str) :=
  match d.originalTitleDiv with
  | none => .error .attrErr
  | some raw =>
    let current_movie_name := imdbProcessedName raw
    match d.titleYearTexts with
    | none => .error .attrErr
    | some ts =>
      match ts.head? with
      | none => .error .indexErr
      | some y =>
        let current_movie_year := pyStrip y
        if title_is_accurate current_movie_name original_movie_name = true ∧
            current_movie_year = movie_year then
          match d.ratingValue with
          | none => .error .attrErr
          | some rv => .ok (some (pyStrip rv))
        else .ok none

/-- One iteration of the IMDb result loop: `item.select("a[href]")[0]` is
read outside the `try` (its `IndexError` propagates and aborts the whole
lookup); everything inside the `try` is caught, logged and turns into
"skip this entry" (`ok none`). -/
def imdbEntryResult (env : IMDBEnv) (original_movie_name movie_year : Str)
    (e : IMDBEntry) : Except PyErr (Option Str) :=
  match e.aHrefs.head? with
  | none => .error .indexErr
  | some href =>
    match imdbTryBody original_movie_name movie_year
        (env.detail (str "https://www.imdb.com" ++ href)) with
    | .error _ => .ok none
    | .ok v => .ok v

/-- The result loop of `get_useful_information_from_imdb`: first entry
whose acceptance test passes yields the rating and ends the loop;
entries that fail or error are passed over; falling off the end returns
Python `None`. -/
def imdbLoop (env : IMDBEnv) (original_movie_name movie_year : Str) :
    List IMDBEntry → Except PyErr (Option Str)
  | [] => .ok none
  | e :: es =>
    match imdbEntryResult env original_movie_name movie_year e with
    | .error pe => .error pe
    | .ok none => imdbLoop env original_movie_name movie_year es
    | .ok (some r) => .ok (some r)

/-- `MoviesFinder.get_useful_information_from_imdb`
(`movies_advisor/movies_finder.py`, lines 198-274): sign in (errors here
are not caught), build the search URL, and scan the result entries. -/
def get_useful_information_from_imdb (env : IMDBEnv)
    (original_movie_name movie_year : Str) : Except PyErr (Option Str) :=
  match sign_in_to_imdb env with
  | .error e => .error e
  | .ok _ =>
    imdbLoop env original_movie_name movie_year
      (env.searchEntries (imdbSearchUrl original_movie_name))

/-- `MoviesFinder.complete_information`
(`movies_advisor/movies_finder.py`, lines 45-68): per movie, in input
order, resolve on Film Affinity, lowercase the resolved original name,
then look up the IMDb rating and store it in the movie's record; no
per-movie exception handling exists, so any error propagates and aborts
the batch. -/
def complete_information (fa : FAEnv) (im : IMDBEnv) (ncrit : Nat) :
    List (Str × Str) → Except PyErr (List (Str × FARecord))
  | [] => .ok []
  | (movie, year) :: rest =>
    match get_useful_information_from_filmaffinity fa ncrit movie year with
    | .error e => .error e
    | .ok r =>
      match get_useful_information_from_imdb im (pyLower r.original_name) year with
      | .error e => .error e
      | .ok rating =>
        match complete_information fa im ncrit rest with
        | .error e => .error e
        | .ok tail => .ok ((movie, { r with imdb_rating := rating }) :: tail)

/-- The line `Logger.log` would append:
`f"{day}, {gmt5_date} GMT+5: {self.message}\n"`. -/
def logLine (day gmt5_date message : Str) : Str :=
  day ++ str ", " ++ gmt5_date ++ str " GMT+5: " ++ message ++ [Char.ofNat 10]

/-- `Logger.log` of `src/utils/log.py` (lines 50-58), modelled at the
Python call boundary.  The definition is `def log(self) -> None`, so the
parameter list besides `self` is empty: a call passing any positional
argument raises `TypeError` before the body runs.  With no arguments the
body runs, but `__init__` never sets the `message` attribute
(`message_attr` is the instance's attribute state), so `self.message`
raises `AttributeError`.  Only when the attribute existed would one
timestamped line be appended to the log file (the current day name and
the formatted GMT+5 date enter as inputs, since reading the clock is an
external effect). -/
def Logger_log (message_attr : Option Str) (args : List Str)
    (day gmt5_date : Str) (log_file : List Str) : Except PyErr (List Str) :=
  if args.length ≠ 0 then .error .typeErr
  else
    match message_attr with
    | none => .error .attrErr
    | some m => .ok (log_file ++ [logLine day gmt5_date m])

/-- The detail page used by the C4 witness. -/
def faPageW : FAPage :=
  ⟨[str " An Original Title "], some (str "A story"), [], []⟩

/-- The environment used by the C4 witness: every URL serves `faPageW`. -/
def faEnvW : FAEnv := ⟨fun _ => faPageW⟩

/-- The accepted candidate of the C4 witness: listed year 2019 for a
query year 2020. -/
def faCandW : FAEntry :=
  ⟨[str "2019"], [⟨some (str "Some Movie"), str "detail-url"⟩]⟩

/-- Detail page of the accepted entry in the C8 witness. -/
def imdbDetailHitW : IMDBDetail :=
  ⟨some (str " Dog (original title) extra "), some [str " 2020 "], some (str " 7.5 ")⟩

/-- Detail page of the skipped entry in the C8 witness: no original-title
block, so the entry errors inside its `try` and is passed over. -/
def imdbDetailSkipW : IMDBDetail := ⟨none, some [str "2020"], some (str "1.0")⟩

/-- Environment of the C8 witness. -/
def imdbEnvW : IMDBEnv :=
  ⟨some (str "signin-link"), fun _ => [],
    fun url => if url = str "https://www.imdb.com/hit" then imdbDetailHitW
      else imdbDetailSkipW⟩

/-- A search page with a unique movie-info block but no description
block: the synopsis extraction's `find` returns `None` and `.text`
raises. -/
def faPageBadW : FAPage := ⟨[str "Some Movie"], none, [], []⟩

/-- Environment serving `faPageBadW` for every URL. -/
def faEnvBadW : FAEnv := ⟨fun _ => faPageBadW⟩

/-- An IMDb environment that signs in and returns no search results. -/
def imdbEnvTrivW : IMDBEnv :=
  ⟨some (str "signin-link"), fun _ => [], fun _ => ⟨none, none, none⟩⟩

/-- A search page with a unique movie-info block and a description. -/
def faPageGoodW : FAPage := ⟨[str "Good Movie"], some (str "A story"), [], []⟩

/-- Environment serving `faPageGoodW` for every URL. -/
def faEnvGoodW : FAEnv := ⟨fun _ => faPageGoodW⟩

/-- `s.split(" ")` is never the empty list (Python returns `[""]` on `""`). -/
theorem pySplitSpace_ne_nil : ∀ s : Str, pySplitSpace s ≠ []
  | [] => by simp [pySplitSpace]
  | c :: cs => by
    have h := pySplitSpace_ne_nil cs
    simp only [pySplitSpace]
    match hm : pySplitSpace cs with
    | [] => exact absurd hm h
    | g :: gs =>
      by_cases hc : c = ' ' <;> simp [hc]

/-- Filtering an `enumFrom` by `index < n` keeps exactly the first `n - k`
entries. -/
theorem enumFrom_filter_lt_eq_take :
    ∀ (l : List Str) (k n : Nat),
      ((List.enumFrom k l).filter fun p => p.1 < n) = List.enumFrom k (l.take (n - k)) := by
  intro l
  induction l with
  | nil => intro k n; simp
  | cons a l ih =>
    intro k n
    by_cases h : k < n
    · have hn : n - k = (n - (k + 1)) + 1 := by omega
      simp only [List.enumFrom, List.filter_cons, decide_eq_true h, hn,
        List.take_succ_cons, if_true, ih]
    · have hn : n - k = 0 := by omega
      have hn' : n - (k + 1) = 0 := by omega
      simp only [List.enumFrom, List.filter_cons, decide_eq_false h, hn, List.take_zero,
        if_false, Bool.false_eq_true]
      have := ih (k + 1) n
      rw [hn'] at this
      simpa using this

/-- Claim C7: with zero critic-excerpt blocks on the scraped page, the
record's critics field is Python `None` (`none`), never an empty list:
the `if critics_tags:` branch is not taken. -/
theorem claim_C7_zero_critics_absent (ncrit : Nat) (movie_year original_name dd : Str)
    (mi : List Str) (se : List FAEntry) :
    processCritics ncrit [] = none ∧
      (faAssemble ncrit movie_year original_name ⟨mi, some dd, [], se⟩).map
        FARecord.critics = .ok none := by
  constructor
  · simp [processCritics]
  · simp [faAssemble, processCritics, Except.map]

/-- Claim C2: `Logger.log` as defined takes no message parameter, so the
recovery sites that call `self._logger.log(message)` raise `TypeError`
instead of appending a line; even a zero-argument call raises
`AttributeError` because `__init__` never sets `self.message`.  Shown at
the concrete message built at `movies_finder.py` line 114. -/
theorem claim_C2_logger_call_raises :
    Logger_log none
        [str "Found more than 1 movie for X. Original exception: list index out of range"]
        (str "Monday") (str "01 Jan 2024 01:00:00 AM") [] = .error .typeErr ∧
      Logger_log none [] (str "Monday") (str "01 Jan 2024 01:00:00 AM") [] =
        .error .attrErr := by
  constructor
  · simp [Logger_log]
  · simp [Logger_log]

/-- Claim C10: the legacy word-containment `title_is_accurate` is total:
`original_title.split(" ")` always has at least one element (even for the
empty string), so the division never raises and a boolean is always
returned. -/
theorem claim_C10_legacy_accuracy_total (title original_title : Str) :
    0 < (pySplitSpace original_title).length ∧
      ∃ b : Bool, title_is_accurate_legacy title original_title = .ok b := by
  have h : pySplitSpace original_title ≠ [] := pySplitSpace_ne_nil _
  have hl : 0 < (pySplitSpace original_title).length := List.length_pos.mpr h
  refine ⟨hl, ?_⟩
  simp only [title_is_accurate_legacy]
  rw [if_neg (by omega)]
  exact ⟨_, rfl⟩

/-- Cleaning the second components of an enumeration is cleaning the list. -/
theorem map_clean_enumFrom :
    ∀ (l : List Str) (k : Nat),
      List.map (fun p : Nat × Str => clean_string (pyStrip p.2)) (List.enumFrom k l) =
        List.map (fun t => clean_string (pyStrip t)) l := by
  intro l
  induction l with
  | nil => intro k; rfl
  | cons a l ih =>
    intro k
    simp only [List.enumFrom, List.map_cons, ih]

/-- Claim C6: when the page exposes more critic blocks than the cap, the
Resolver keeps exactly the first `number_critics` blocks in document
order (the enumerate-filter is a `take`), each post-processed by the
cleaning, trailing-period and `"Rating"`-truncation steps. -/
theorem claim_C6_critics_cap_takes_first (number_critics : Nat) (critics_tags : List Str)
    (h : number_critics < critics_tags.length) :
    processCritics number_critics critics_tags =
      some (((((critics_tags.take number_critics).map
          (fun t => clean_string (pyStrip t))).map
        (fun c => if (str ".").isSuffixOf c then c else c ++ str ".")).map
        (fun c => if isSubstring (str "Rating") c then
          pyStrip (splitFirstPart (str "Rating") c) else c))) := by
  have hne : critics_tags ≠ [] := by
    intro he
    rw [he] at h
    simp at h
  simp only [processCritics, if_pos hne]
  have he : critics_tags.enum = List.enumFrom 0 critics_tags := rfl
  rw [he, enumFrom_filter_lt_eq_take, Nat.sub_zero, map_clean_enumFrom]

/-- Witness for C6 at `number_critics = 2` and five excerpt blocks. -/
theorem claim_C6_witness :
    processCritics 2 [str "fine work", str "dull", str "great Rating 9", str "meh",
      str "ok"] = some [str "fine work.", str "dull."] :=
  (claim_C6_critics_cap_takes_first 2
    [str "fine work", str "dull", str "great Rating 9", str "meh", str "ok"]
    (by decide)).trans (by decide)

/-- Claim C4: in the disambiguation fallback, for a candidate whose
`title` attribute matches the display title case-insensitively, a parsed
listed year within `Y - 1 .. Y + 1` is accepted — the candidate's detail
page is fetched and its first `movie-info` text (stripped) is returned —
while a parsed listed year of `Y - 2` or `Y + 2` makes the loop move to
the remaining candidates; a candidate whose title does not match is
skipped with no year examined at all. -/
theorem claim_C4_fallback_year_window (env : FAEnv) (movie_name year : Str) (Y : Int)
    (c : FAEntry) (cs : List FAEntry) (t0 : FALink) (ta y0 : Str)
    (hhead : c.aHrefs.head? = some t0)
    (hattr : t0.titleAttr = some ta)
    (hyear : c.yeWTexts.head? = some y0)
    (hY : pyInt year = some Y) :
    (pyLower (pyStrip ta) = pyLower movie_name →
      ∀ C : Int, pyInt (pyStrip y0) = some C →
        ((Y - 1 ≤ C ∧ C ≤ Y + 1) →
          ∀ orig rest, (env.fetch t0.href).movieInfoDds = orig :: rest →
            faFallback env movie_name year (c :: cs) =
              .ok (some (pyStrip orig, env.fetch t0.href))) ∧
        ((C = Y - 2 ∨ C = Y + 2) →
          faFallback env movie_name year (c :: cs) =
            faFallback env movie_name year cs)) ∧
    (pyLower (pyStrip ta) ≠ pyLower movie_name →
      faFallback env movie_name year (c :: cs) = faFallback env movie_name year cs) := by
  constructor
  · intro htitle C hC
    constructor
    · intro hwin orig rest horig
      simp only [faFallback, hhead, hattr, hyear]
      rw [if_pos htitle]
      by_cases hs : pyStrip y0 = year
      · rw [if_pos hs]
        simp only [horig, List.head?]
      · rw [if_neg hs, hY, hC]
        simp only [decide_eq_true hwin, horig, List.head?]
    · intro hrange
      have hs : pyStrip y0 ≠ year := by
        intro he
        rw [he, hY] at hC
        injection hC with h
        rcases hrange with h2 | h2 <;> omega
      have hno : ¬(Y - 1 ≤ C ∧ C ≤ Y + 1) := by
        rcases hrange with h2 | h2 <;> omega
      simp only [faFallback, hhead, hattr, hyear]
      rw [if_pos htitle, if_neg hs, hY, hC]
      simp only [decide_eq_false hno]
  · intro htitle
    simp only [faFallback, hhead, hattr]
    rw [if_neg htitle]

/-- Witness for C4: the candidate with matching title and listed year
`Y - 1` is accepted and its detail page's title is returned. -/
theorem claim_C4_witness :
    faFallback faEnvW (str "some movie") (str "2020") [faCandW] =
      .ok (some (str "An Original Title", faPageW)) :=
  (((claim_C4_fallback_year_window faEnvW (str "some movie") (str "2020") 2020
      faCandW [] ⟨some (str "Some Movie"), str "detail-url"⟩ (str "Some Movie")
      (str "2019") rfl rfl rfl (by decide)).1 (by decide) 2019 (by decide)).1
    (by decide) (str " An Original Title ") [] rfl).trans (by decide)

/-- Distance to the empty string is the string's length (all deletions). -/
theorem lev_nil_right : ∀ a : Str, levenshtein levCost a [] = a.length := by
  intro a
  induction a with
  | nil => simp
  | cons x xs ih =>
    rw [levenshtein_cons_nil, ih]
    simp only [levCost, List.length_cons]
    omega

/-- Distance from the empty string is the string's length (all insertions). -/
theorem lev_nil_left : ∀ b : Str, levenshtein levCost [] b = b.length := by
  intro b
  induction b with
  | nil => simp
  | cons y ys ih =>
    rw [levenshtein_nil_cons, ih]
    simp only [levCost, List.length_cons]
    omega

/-- The substitution-cost-2 distance never exceeds the length sum. -/
theorem lev_le_lensum : ∀ a b : Str, levenshtein levCost a b ≤ a.length + b.length := by
  intro a
  induction a with
  | nil => intro b; rw [lev_nil_left]; omega
  | cons x xs ih =>
    intro b
    cases b with
    | nil => rw [lev_nil_right]; omega
    | cons y ys =>
      have h1 : levenshtein levCost (x :: xs) (y :: ys) ≤
          levCost.delete x + levenshtein levCost xs (y :: ys) := by
        rw [levenshtein_cons_cons]; exact min_le_left _ _
      have h2 := ih (y :: ys)
      have hd : levCost.delete x = 1 := rfl
      rw [hd] at h1
      simp only [List.length_cons] at h2 ⊢
      omega

/-- The substitution-cost-2 distance is symmetric (fuel-indexed strong
induction on the length sum). -/
theorem lev_comm_aux : ∀ (n : Nat) (a b : Str), a.length + b.length ≤ n →
    levenshtein levCost a b = levenshtein levCost b a := by
  intro n
  induction n with
  | zero =>
    intro a b h
    have ha : a = [] := by
      cases a with
      | nil => rfl
      | cons x xs => simp at h
    have hb : b = [] := by
      cases b with
      | nil => rfl
      | cons y ys => simp at h
    rw [ha, hb]
  | succ n ih =>
    intro a b h
    cases a with
    | nil => rw [lev_nil_left, lev_nil_right]
    | cons x xs =>
      cases b with
      | nil => rw [lev_nil_left, lev_nil_right]
      | cons y ys =>
        have h1 : xs.length + (y :: ys).length ≤ n := by
          simp only [List.length_cons] at h ⊢; omega
        have h2 : (x :: xs).length + ys.length ≤ n := by
          simp only [List.length_cons] at h ⊢; omega
        have h3 : xs.length + ys.length ≤ n := by
          simp only [List.length_cons] at h ⊢; omega
        rw [levenshtein_cons_cons, levenshtein_cons_cons,
          ih xs (y :: ys) h1, ih (x :: xs) ys h2, ih xs ys h3]
        have hsub : levCost.substitute x y = levCost.substitute y x := by
          simp only [levCost]
          by_cases hxy : x = y
          · rw [if_pos hxy, if_pos hxy.symm]
          · rw [if_neg hxy, if_neg (fun hyx => hxy hyx.symm)]
        have hdel : levCost.delete x = levCost.insert x := rfl
        have hdel' : levCost.delete y = levCost.insert y := rfl
        rw [hsub, ← hdel, ← hdel']
        rw [min_left_comm]

/-- The substitution-cost-2 distance is symmetric. -/
theorem lev_comm (a b : Str) : levenshtein levCost a b = levenshtein levCost b a :=
  lev_comm_aux (a.length + b.length) a b le_rfl

/-- `title_is_accurate` is literally the 0.9 threshold test on the ratio. -/
theorem title_is_accurate_eq_true_iff (t o : Str) :
    title_is_accurate t o = true ↔ levenshtein_ratio t o ≥ (0.9 : ℚ) := by
  by_cases h : levenshtein_ratio t o ≥ (0.9 : ℚ) <;> simp [title_is_accurate, h]

/-- Integer characterisation of the 0.9 ratio threshold: the ratio is at
least 0.9 exactly when ten times the distance is at most the length sum. -/
theorem title_is_accurate_nat (t o : Str) :
    title_is_accurate t o = true ↔
      10 * levenshtein levCost t o ≤ t.length + o.length := by
  rw [title_is_accurate_eq_true_iff]
  unfold levenshtein_ratio
  by_cases h0 : t.length + o.length = 0
  · have ht : t = [] := by
      cases t with
      | nil => rfl
      | cons x xs => simp at h0
    have ho : o = [] := by
      cases o with
      | nil => rfl
      | cons x xs => simp [ht] at h0
    subst ht; subst ho
    simp only [levenshtein_nil_nil]
    norm_num
  · rw [if_neg h0]
    rw [ge_iff_le]
    have h09 : (0.9 : ℚ) = 9 / 10 := by norm_num
    rw [h09]
    generalize hd : levenshtein levCost t o = d
    generalize hL : t.length + o.length = L at h0 ⊢
    have hLq : (0 : ℚ) < (L : ℚ) := by exact_mod_cast Nat.pos_of_ne_zero h0
    rw [div_le_div_iff₀ (by norm_num) hLq]
    constructor
    · intro hq
      have hq' : ((10 * d : ℕ) : ℚ) ≤ (L : ℚ) := by push_cast; linarith
      exact_mod_cast hq'
    · intro hn
      have hn' : ((10 * d : ℕ) : ℚ) ≤ (L : ℚ) := by exact_mod_cast hn
      push_cast at hn'
      linarith

/-- Claim C3: `title_is_accurate(a, b)` holds exactly when the
edit-distance-based normalized similarity `Levenshtein.ratio(a, b)` is at
least 0.90, and the test is symmetric in its two arguments. -/
theorem claim_C3_accuracy_threshold_and_symmetry (a b : Str) :
    (title_is_accurate a b = true ↔ levenshtein_ratio a b ≥ (0.9 : ℚ)) ∧
      title_is_accurate a b = title_is_accurate b a := by
  refine ⟨title_is_accurate_eq_true_iff a b, ?_⟩
  simp only [title_is_accurate, levenshtein_ratio]
  simp only [lev_comm a b, Nat.add_comm a.length b.length]

/-- Entries that are examined and not accepted leave the scan unchanged. -/
theorem imdbLoop_append_of_skipped (env : IMDBEnv) (o y : Str) (l : List IMDBEntry) :
    ∀ es : List IMDBEntry, (∀ e ∈ es, imdbEntryResult env o y e = .ok none) →
      imdbLoop env o y (es ++ l) = imdbLoop env o y l := by
  intro es
  induction es with
  | nil => intro _; rfl
  | cons a es ih =>
    intro h
    have ha := h a (List.mem_cons_self a es)
    have hrest : ∀ e ∈ es, imdbEntryResult env o y e = .ok none := fun e he =>
      h e (List.mem_cons_of_mem a he)
    simp only [List.cons_append, imdbLoop, ha, List.append_eq, ih hrest]

/-- Claim C8: the Cross-Source Matcher accepts an entry (whose detail page
carries an original title, a year and a rating) exactly when
`title_is_accurate(page_title, canonical_title)` holds and the page year
equals the query year as strings (no tolerance); the first entry passing
both, after any number of examined-and-rejected entries, yields its
(stripped) rating, and the entries after it play no role in the result. -/
theorem claim_C8_matcher_first_match (env : IMDBEnv) (canonical_title movie_year : Str)
    (es₁ es₂ : List IMDBEntry) (e : IMDBEntry) (href rawName yt rv : Str)
    (ts : List Str)
    (hskip : ∀ e' ∈ es₁, imdbEntryResult env canonical_title movie_year e' = .ok none)
    (hhref : e.aHrefs.head? = some href)
    (hname : (env.detail (str "https://www.imdb.com" ++ href)).originalTitleDiv =
      some rawName)
    (hys : (env.detail (str "https://www.imdb.com" ++ href)).titleYearTexts = some ts)
    (hyt : ts.head? = some yt)
    (hrv : (env.detail (str "https://www.imdb.com" ++ href)).ratingValue = some rv) :
    (imdbEntryResult env canonical_title movie_year e =
      .ok (if title_is_accurate (imdbProcessedName rawName) canonical_title = true ∧
          pyStrip yt = movie_year then some (pyStrip rv) else none)) ∧
    ((title_is_accurate (imdbProcessedName rawName) canonical_title = true ∧
        pyStrip yt = movie_year) →
      imdbLoop env canonical_title movie_year (es₁ ++ e :: es₂) =
        .ok (some (pyStrip rv)) ∧
      imdbLoop env canonical_title movie_year (es₁ ++ e :: es₂) =
        imdbLoop env canonical_title movie_year (es₁ ++ [e])) := by
  have h1 : imdbEntryResult env canonical_title movie_year e =
      .ok (if title_is_accurate (imdbProcessedName rawName) canonical_title = true ∧
          pyStrip yt = movie_year then some (pyStrip rv) else none) := by
    simp only [imdbEntryResult, hhref, imdbTryBody, hname, hys, hyt]
    by_cases hacc : title_is_accurate (imdbProcessedName rawName) canonical_title = true ∧
        pyStrip yt = movie_year
    · rw [if_pos hacc, if_pos hacc]
      simp only [hrv]
    · rw [if_neg hacc, if_neg hacc]
  refine ⟨h1, fun hacc => ?_⟩
  have h2 : imdbEntryResult env canonical_title movie_year e = .ok (some (pyStrip rv)) := by
    rw [h1, if_pos hacc]
  constructor
  · rw [imdbLoop_append_of_skipped env canonical_title movie_year (e :: es₂) es₁ hskip]
    simp only [imdbLoop, h2]
  · rw [imdbLoop_append_of_skipped env canonical_title movie_year (e :: es₂) es₁ hskip,
      imdbLoop_append_of_skipped env canonical_title movie_year [e] es₁ hskip]
    simp only [imdbLoop, h2]

/-- Witness for C8: one skipped entry, then the accepting entry, then a
trailing entry that is never examined. -/
theorem claim_C8_witness :
    imdbLoop imdbEnvW (str "dog") (str "2020")
        [⟨[str "/skip"]⟩, ⟨[str "/hit"]⟩, ⟨[str "/tail"]⟩] =
      .ok (some (str "7.5")) := by
  have h := (claim_C8_matcher_first_match imdbEnvW (str "dog") (str "2020")
    [⟨[str "/skip"]⟩] [⟨[str "/tail"]⟩] ⟨[str "/hit"]⟩ (str "/hit")
    (str " Dog (original title) extra ") (str " 2020 ") (str " 7.5 ") [str " 2020 "]
    (by intro e' he'; rw [List.mem_singleton] at he'; subst he'; decide)
    rfl (by decide) (by decide) rfl (by decide)).2
    ⟨(title_is_accurate_nat _ _).mpr (by decide), by decide⟩
  have h75 : pyStrip (str " 7.5 ") = str "7.5" := by decide
  rw [← h75]
  exact h.1

/-- An ASCII digit is not a Python whitespace character. -/
theorem isDigit_not_pySpace (c : Char) (h : c.isDigit = true) : isPySpace c = false := by
  by_contra hs
  rw [Bool.not_eq_false] at hs
  unfold isPySpace at hs
  simp only [Bool.or_eq_true, decide_eq_true_eq] at hs
  rcases hs with ((((h1 | h1) | h1) | h1) | h1) | h1 <;> subst h1 <;>
    exact absurd h (by decide)

/-- An ASCII digit is not a closing parenthesis. -/
theorem isDigit_ne_rparen (c : Char) (h : c.isDigit = true) : c ≠ ')' := by
  intro he
  subst he
  exact absurd h (by decide)

/-- An ASCII digit is not a newline. -/
theorem isDigit_ne_newline (c : Char) (h : c.isDigit = true) : c ≠ '\n' := by
  intro he
  subst he
  exact absurd h (by decide)

/-- `dropWhile` does nothing on a space-free string. -/
theorem dropWhile_pySpace_eq_self (s : Str) (h : ∀ c ∈ s, isPySpace c = false) :
    s.dropWhile isPySpace = s := by
  cases s with
  | nil => rfl
  | cons c cs =>
    rw [List.dropWhile_cons, h c (List.mem_cons_self c cs)]
    simp

/-- `strip` does nothing on a space-free string. -/
theorem pyStrip_of_no_space (s : Str) (h : ∀ c ∈ s, isPySpace c = false) :
    pyStrip s = s := by
  unfold pyStrip
  rw [dropWhile_pySpace_eq_self s h,
    dropWhile_pySpace_eq_self s.reverse (fun c hc => h c (List.mem_reverse.mp hc)),
    List.reverse_reverse]

/-- The digit-run parser succeeds once a digit has been seen. -/
theorem pyIntMagLoop_digits : ∀ (d : Str) (acc : Nat), (∀ c ∈ d, c.isDigit = true) →
    (pyIntMagLoop d acc true).isSome = true := by
  intro d
  induction d with
  | nil => intro acc _; rfl
  | cons c cs ih =>
    intro acc h
    have hc := h c (List.mem_cons_self c cs)
    simp only [pyIntMagLoop, hc, if_true]
    exact ih _ (fun x hx => h x (List.mem_cons_of_mem c hx))

/-- `int` succeeds on a nonempty all-digit string. -/
theorem pyInt_digits_isSome (d : Str) (hne : d ≠ []) (h : ∀ c ∈ d, c.isDigit = true) :
    (pyInt d).isSome = true := by
  have hns : ∀ c ∈ d, isPySpace c = false := fun c hc => isDigit_not_pySpace c (h c hc)
  cases d with
  | nil => exact absurd rfl hne
  | cons c cs =>
    have hc := h c (List.mem_cons_self c cs)
    have hplus : c ≠ '+' := by intro he; subst he; exact absurd hc (by decide)
    have hminus : c ≠ '-' := by intro he; subst he; exact absurd hc (by decide)
    simp only [pyInt, pyStrip_of_no_space _ hns]
    rw [if_neg hplus, if_neg hminus, Option.isSome_map']
    simp only [pyIntMagLoop, hc, if_true]
    exact pyIntMagLoop_digits _ _ (fun x hx => h x (List.mem_cons_of_mem c hx))

/-- `splitRParen` accounts for every character. -/
theorem splitRParen_length : ∀ (s i a : Str), splitRParen s = some (i, a) →
    i.length + a.length + 1 = s.length := by
  intro s
  induction s with
  | nil => intro i a h; simp [splitRParen] at h
  | cons c cs ih =>
    intro i a h
    by_cases hc : c = ')'
    · rw [splitRParen, if_pos hc] at h
      injection h with h
      injection h with h1 h2
      subst h1; subst h2
      simp
    · rw [splitRParen, if_neg hc] at h
      match hm : splitRParen cs with
      | none => rw [hm] at h; exact absurd h (by simp)
      | some p =>
        rw [hm, Option.map_some'] at h
        injection h with h
        injection h with h1 h2
        subst h1; subst h2
        have := ih p.1 p.2 (by rw [hm])
        simp only [List.length_cons]
        omega

/-- Scanning to the first `')'` through a run without `')'`. -/
theorem splitRParen_through (r : Str) : ∀ d : Str, (∀ c ∈ d, c ≠ ')') →
    splitRParen (d ++ ')' :: r) = some (d, r) := by
  intro d
  induction d with
  | nil => simp [splitRParen]
  | cons c cs ih =>
    intro h
    have hc := h c (List.mem_cons_self c cs)
    rw [List.cons_append, splitRParen, if_neg hc,
      ih (fun x hx => h x (List.mem_cons_of_mem c hx))]
    rfl

/-- `parenGroupsAux` ignores its fuel as long as the fuel covers the
string length. -/
theorem parenGroupsAux_stable : ∀ (f g : Nat) (s : Str), s.length ≤ f → s.length ≤ g →
    parenGroupsAux f s = parenGroupsAux g s := by
  intro f
  induction f with
  | zero =>
    intro g s hf _
    have hs : s = [] := List.length_eq_zero.mp (Nat.le_zero.mp hf)
    subst hs
    cases g <;> rfl
  | succ f ih =>
    intro g s hf hg
    cases s with
    | nil => cases g <;> rfl
    | cons c rest =>
      cases g with
      | zero => simp at hg
      | succ g =>
        simp only [List.length_cons] at hf hg
        by_cases hc : c = '('
        · simp only [parenGroupsAux, if_pos hc]
          match hm : splitRParen rest with
          | none => exact ih g rest (by omega) (by omega)
          | some p =>
            have hl := splitRParen_length rest p.1 p.2 (by rw [hm])
            by_cases hn : '\n' ∈ p.1
            · simp only [hn, if_true]
              exact ih g rest (by omega) (by omega)
            · simp only [hn, if_false]
              rw [ih g p.2 (by omega) (by omega)]
        · simp only [parenGroupsAux, if_neg hc]
          exact ih g rest (by omega) (by omega)

/-- A non-`'('` head character contributes no group. -/
theorem parenGroups_cons_notParen (c : Char) (t : Str) (hc : c ≠ '(') :
    parenGroups (c :: t) = parenGroups t := by
  simp only [parenGroups, List.length_cons, parenGroupsAux, if_neg hc]

/-- A `'('`-free prefix contributes no group. -/
theorem parenGroups_skipAll : ∀ (t u : Str), (∀ c ∈ t, c ≠ '(') →
    parenGroups (t ++ u) = parenGroups u := by
  intro t
  induction t with
  | nil => intro u _; rfl
  | cons c cs ih =>
    intro u h
    rw [List.cons_append,
      parenGroups_cons_notParen c (cs ++ u) (h c (List.mem_cons_self c cs)),
      ih u (fun x hx => h x (List.mem_cons_of_mem c hx))]

/-- Opening a group whose interior has no newline: the interior is emitted
and scanning resumes after the closing parenthesis. -/
theorem parenGroups_open (rest i a : Str) (hs : splitRParen rest = some (i, a))
    (hn : ¬ '\n' ∈ i) :
    parenGroups ('(' :: rest) = i :: parenGroups a := by
  have hl := splitRParen_length rest i a hs
  simp only [parenGroups, List.length_cons, parenGroupsAux, if_pos rfl, hs, hn, if_false]
  rw [parenGroupsAux_stable rest.length a.length a (by omega) le_rfl]
  exact if_pos trivial

/-- The inner legacy scan through a `')'`-free run: the run is appended to
the accumulator and the first `')'` triggers the `int` test. -/
theorem lfyInner_through (r : Str) : ∀ (d py : Str), (∀ c ∈ d, c ≠ ')') →
    lfyInner (d ++ ')' :: r) py =
      (if (pyInt (py ++ d)).isSome then (py ++ d, true) else ([], false)) := by
  intro d
  induction d with
  | nil => intro py _; simp [lfyInner]
  | cons c cs ih =>
    intro py h
    have hc := h c (List.mem_cons_self c cs)
    rw [List.cons_append, lfyInner, if_neg hc,
      ih (py ++ [c]) (fun x hx => h x (List.mem_cons_of_mem c hx))]
    simp

/-- The outer legacy loop through a `'('`-free run: each character only
advances the counter. -/
theorem lfyOuter_skip (s : Str) : ∀ (t rest : Str) (cont : Nat) (py : Str),
    (∀ c ∈ t, c ≠ '(') →
    lfyOuter s (t ++ rest) cont py false = lfyOuter s rest (cont + t.length) py false := by
  intro t
  induction t with
  | nil => intro rest cont py _; rfl
  | cons c cs ih =>
    intro rest cont py h
    have hc := h c (List.mem_cons_self c cs)
    rw [List.cons_append, lfyOuter]
    simp only [if_neg hc, Bool.false_eq_true, if_false]
    rw [ih rest (cont + 1) py (fun x hx => h x (List.mem_cons_of_mem c hx))]
    simp only [List.length_cons]
    rw [show cont + 1 + cs.length = cont + (cs.length + 1) by omega]

/-- Once the year is marked found, the outer legacy loop returns the
accumulator unchanged. -/
theorem lfyOuter_true (s : Str) : ∀ (l : Str) (cont : Nat) (py : Str),
    lfyOuter s l cont py true = py := by
  intro l cont py
  cases l with
  | nil => rfl
  | cons c cs => simp [lfyOuter]

/-- One `'('` step of the outer legacy loop. -/
theorem lfyOuter_open (s cs : Str) (cont : Nat) (py : Str) :
    lfyOuter s ('(' :: cs) cont py false =
      lfyOuter s cs cont (lfyInner (s.drop (cont + 1)) py).1
        (lfyInner (s.drop (cont + 1)) py).2 := by
  simp [lfyOuter]

/-- Dropping a prefix and one more character. -/
theorem drop_prefix_cons (t y : Str) (c : Char) :
    (t ++ c :: y).drop (t.length + 1) = y := by
  rw [List.append_cons]
  have h := List.drop_left (t ++ [c]) y
  simp only [List.length_append, List.length_cons, List.length_nil, Nat.zero_add] at h
  exact h

/-- Claim C9 (amended): on inputs whose first `'('` opens an all-digit,
properly closed group, the legacy scanner and the regex rewrite agree,
both returning that digit run; on other inputs they can differ (see the
counterexample `"(1"`). -/
theorem claim_C9_amended_first_group_agreement (t d r : Str)
    (ht : ∀ c ∈ t, c ≠ '(') (hd : d ≠ []) (hdig : ∀ c ∈ d, c.isDigit = true) :
    find_year_legacy (t ++ '(' :: (d ++ ')' :: r)) = d ∧
      find_year_regex (t ++ '(' :: (d ++ ')' :: r)) = d := by
  have hdr : ∀ c ∈ d, c ≠ ')' := fun c hc => isDigit_ne_rparen c (hdig c hc)
  have hdn : ¬ '\n' ∈ d := fun hn => isDigit_ne_newline '\n' (hdig _ hn) rfl
  constructor
  · unfold find_year_legacy
    rw [lfyOuter_skip _ t ('(' :: (d ++ ')' :: r)) 0 [] ht, Nat.zero_add,
      lfyOuter_open, drop_prefix_cons, lfyInner_through r d [] hdr,
      List.nil_append]
    rw [if_pos (pyInt_digits_isSome d hd hdig)]
    exact lfyOuter_true _ _ _ _
  · have hpd : pyIsDigit d = true := by
      cases d with
      | nil => exact absurd rfl hd
      | cons c cs =>
        simp only [pyIsDigit, List.isEmpty_cons, Bool.not_false, Bool.true_and,
          List.all_eq_true]
        intro x hx
        exact hdig x hx
    unfold find_year_regex
    rw [parenGroups_skipAll t _ ht,
      parenGroups_open (d ++ ')' :: r) d r (splitRParen_through r d hdr) hdn,
      List.find?_cons_of_pos _ hpd]

/-- Claim C9 (counterexample): on `"(1"` the legacy scanner keeps the
unclosed accumulator and returns `"1"`, while the regex rewrite finds no
match and returns the empty string. -/
theorem claim_C9_counterexample :
    find_year_legacy (str "(1") = str "1" ∧ find_year_regex (str "(1") = str "" ∧
      find_year_legacy (str "(1") ≠ find_year_regex (str "(1") := by
  exact ⟨by decide, by decide, by decide⟩

/-- Witness for the amended C9 on `"x(2019)y"`. -/
theorem claim_C9_witness :
    find_year_legacy (str "x(2019)y") = str "2019" ∧
      find_year_regex (str "x(2019)y") = str "2019" :=
  claim_C9_amended_first_group_agreement (str "x") (str "2019") (str "y")
    (by decide) (by decide) (by decide)

/-- Claim C1 (counterexample): a single movie whose detail page lacks a
synopsis block makes the whole batch raise `AttributeError`; the run does
not complete and no result mapping is produced. -/
theorem claim_C1_counterexample :
    complete_information faEnvBadW imdbEnvTrivW 2 [(str "movie", str "2020")] =
      .error .attrErr := by
  decide

/-- Claim C1 (amended): only the ambiguous-result `IndexError` and the
per-entry IMDb failures are recovered; any other per-movie failure
propagates out of `complete_information` and aborts the batch.  When the
Film Affinity resolution and the IMDb lookup of every movie return
without raising, the batch completes and the result holds exactly one
record per input title, in input order. -/
theorem claim_C1_amended_batch_completes (fa : FAEnv) (im : IMDBEnv) (ncrit : Nat)
    (movies : List (Str × Str))
    (h : ∀ m y, (m, y) ∈ movies → ∃ rcd rt,
      get_useful_information_from_filmaffinity fa ncrit m y = .ok rcd ∧
      get_useful_information_from_imdb im (pyLower rcd.original_name) y = .ok rt) :
    ∃ res, complete_information fa im ncrit movies = .ok res ∧
      res.map Prod.fst = movies.map Prod.fst := by
  revert h
  induction movies with
  | nil => intro _; exact ⟨[], rfl, rfl⟩
  | cons p rest ih =>
    intro h
    obtain ⟨m, y⟩ := p
    obtain ⟨rcd, rt, h1, h2⟩ := h m y (List.mem_cons_self _ _)
    obtain ⟨tail, htail, hmap⟩ :=
      ih (fun m' y' hm' => h m' y' (List.mem_cons_of_mem _ hm'))
    refine ⟨(m, { rcd with imdb_rating := rt }) :: tail, ?_, ?_⟩
    · simp only [complete_information, h1, h2, htail]
    · simp only [List.map_cons, hmap]

/-- Witness for the amended C1: one movie, successful resolution, empty
IMDb result list (rating stays absent), one record keyed by the input
title. -/
theorem claim_C1_witness :
    ∃ res, complete_information faEnvGoodW imdbEnvTrivW 2
        [(str "pelicula", str "2020")] = .ok res ∧
      res.map Prod.fst = [str "pelicula"] := by
  have h := claim_C1_amended_batch_completes faEnvGoodW imdbEnvTrivW 2
    [(str "pelicula", str "2020")] ?hh
  · exact h
  case hh =>
    intro m y hm
    rw [List.mem_singleton] at hm
    injection hm with hm1 hm2
    subst hm1; subst hm2
    exact ⟨⟨str "Good Movie", str "2020", str "A story.", none, none⟩, none,
      by decide, by decide⟩

/-- `isSubstring` is the contiguous-occurrence (infix) relation. -/
theorem isSubstring_iff : ∀ (p s : Str), isSubstring p s = true ↔ p <:+: s := by
  intro p s
  induction s with
  | nil => simp [isSubstring, List.infix_nil, List.isEmpty_iff]
  | cons c cs ih =>
    simp only [isSubstring, Bool.or_eq_true, List.isPrefixOf_iff_prefix, ih,
      List.infix_cons_iff]

/-- `isSubstring` is `false` exactly on non-occurrence. -/
theorem isSubstring_eq_false_iff (p s : Str) : isSubstring p s = false ↔ ¬ p <:+: s := by
  rw [← isSubstring_iff]
  cases isSubstring p s <;> simp

/-- A replace with no occurrence of the pattern is the identity (fuelled). -/
theorem pyReplaceAux_eq_self (p r : Str) : ∀ (f : Nat) (s : Str), ¬ p <:+: s →
    pyReplaceAux p r f s = s := by
  intro f
  induction f with
  | zero => intro s _; rfl
  | succ f ih =>
    intro s h
    cases s with
    | nil => rfl
    | cons c cs =>
      rw [pyReplaceAux]
      rw [if_neg (by
        rintro ⟨hp, hpre⟩
        exact h (List.isPrefixOf_iff_prefix.mp hpre).isInfix)]
      rw [ih cs (fun hi => h (List.infix_cons hi))]

/-- A replace with no occurrence of the pattern is the identity. -/
theorem pyReplace_eq_self (p r s : Str) (h : ¬ p <:+: s) : pyReplace p r s = s :=
  pyReplaceAux_eq_self p r s.length s h

/-- A replace whose pattern holds a character absent from the string is
the identity. -/
theorem pyReplace_eq_self_of_char (p r s : Str) (c : Char) (hc : c ∈ p) (hs : c ∉ s) :
    pyReplace p r s = s :=
  pyReplace_eq_self p r s (fun hi => hs (hi.subset hc))

/-- Every character of a replace output comes from the input or the
replacement (fuelled). -/
theorem mem_pyReplaceAux (p r : Str) (a : Char) : ∀ (f : Nat) (s : Str),
    a ∈ pyReplaceAux p r f s → a ∈ s ∨ a ∈ r := by
  intro f
  induction f with
  | zero => intro s h; exact Or.inl h
  | succ f ih =>
    intro s h
    cases s with
    | nil => rw [pyReplaceAux] at h; exact Or.inl h
    | cons c cs =>
      rw [pyReplaceAux] at h
      by_cases hm : p ≠ [] ∧ p.isPrefixOf (c :: cs) = true
      · rw [if_pos hm] at h
        rcases List.mem_append.mp h with hr | hrec
        · exact Or.inr hr
        · rcases ih _ hrec with hd | hr
          · exact Or.inl (List.mem_cons_of_mem c (List.mem_of_mem_drop hd))
          · exact Or.inr hr
      · rw [if_neg hm] at h
        rcases List.mem_cons.mp h with rfl | hrec
        · exact Or.inl (List.mem_cons_self _ _)
        · rcases ih cs hrec with h1 | h2
          · exact Or.inl (List.mem_cons_of_mem c h1)
          · exact Or.inr h2

/-- A character absent from input and replacement is absent from the
replace output. -/
theorem notMem_pyReplace (p r s : Str) (a : Char) (hs : a ∉ s) (hr : a ∉ r) :
    a ∉ pyReplace p r s := fun h => by
  rcases mem_pyReplaceAux p r a s.length s h with h1 | h2
  · exact hs h1
  · exact hr h2

/-- Characters from the replace output come from the input or the
replacement. -/
theorem mem_pyReplace (p r s : Str) (a : Char) (h : a ∈ pyReplace p r s) :
    a ∈ s ∨ a ∈ r :=
  mem_pyReplaceAux p r a s.length s h

/-- Replacing a single-character pattern by a replacement not holding
that character removes every occurrence of the character (fuelled). -/
theorem notMem_pyReplaceAux_single (c : Char) (r : Str) (hr : c ∉ r) :
    ∀ (f : Nat) (s : Str), s.length ≤ f → c ∉ pyReplaceAux [c] r f s := by
  intro f
  induction f with
  | zero =>
    intro s hf
    have hs : s = [] := List.length_eq_zero.mp (Nat.le_zero.mp hf)
    subst hs
    simp [pyReplaceAux]
  | succ f ih =>
    intro s hf
    cases s with
    | nil => simp [pyReplaceAux]
    | cons d ds =>
      simp only [List.length_cons] at hf
      rw [pyReplaceAux]
      by_cases hm : ([c] : Str) ≠ [] ∧ ([c] : Str).isPrefixOf (d :: ds) = true
      · rw [if_pos hm]
        intro hmem
        rcases List.mem_append.mp hmem with h1 | h2
        · exact hr h1
        · have : (ds.drop (([c] : Str).length - 1)) = ds := by
            simp
          rw [this] at h2
          exact ih ds (by omega) h2
      · rw [if_neg hm]
        have hdc : ¬ (c = d) := by
          intro he
          subst he
          exact hm ⟨by simp, by simp [List.isPrefixOf]⟩
        intro hmem
        rcases List.mem_cons.mp hmem with he | h2
        · exact hdc he
        · exact ih ds (by omega) h2

/-- Single-character elimination for `pyReplace`. -/
theorem notMem_pyReplace_elim (p r s : Str) (c : Char) (hp : p = [c]) (hr : c ∉ r) :
    c ∉ pyReplace p r s := by
  subst hp
  exact notMem_pyReplaceAux_single c r hr s.length s le_rfl

/-- The head of a replace output is the head of the replacement at a
match, or the head of the input. -/
theorem head?_pyReplaceAux (p r : Str) (hr : r ≠ []) (f : Nat) (cs : Str) (a : Char)
    (h : (pyReplaceAux p r f cs).head? = some a) :
    (p.isPrefixOf cs = true ∧ r.head? = some a) ∨ cs.head? = some a := by
  cases f with
  | zero => exact Or.inr h
  | succ f =>
    cases cs with
    | nil => rw [pyReplaceAux] at h; simp at h
    | cons c cs' =>
      rw [pyReplaceAux] at h
      by_cases hm : p ≠ [] ∧ p.isPrefixOf (c :: cs') = true
      · rw [if_pos hm] at h
        cases r with
        | nil => exact absurd rfl hr
        | cons rh rt =>
          rw [List.cons_append] at h
          injection h with h1
          exact Or.inl ⟨hm.2, by subst h1; rfl⟩
      · rw [if_neg hm] at h
        injection h with h1
        exact Or.inr (by subst h1; rfl)

/-- A two-character infix of a concatenation lies in the left part, in the
right part, or straddles the boundary. -/
theorem infix_pair_append {x y : Char} : ∀ (u v : Str), [x, y] <:+: u ++ v →
    [x, y] <:+: u ∨ [x, y] <:+: v ∨ (u.getLast? = some x ∧ v.head? = some y) := by
  intro u
  induction u with
  | nil => intro v h; exact Or.inr (Or.inl h)
  | cons c u' ih =>
    intro v h
    rw [List.cons_append, List.infix_cons_iff] at h
    rcases h with hpre | hinf
    · obtain ⟨t, ht⟩ := hpre
      have ht' : x :: y :: t = c :: (u' ++ v) := ht
      injection ht' with h1 h2
      subst h1
      cases u' with
      | nil =>
        simp only [List.nil_append] at h2
        refine Or.inr (Or.inr ⟨rfl, ?_⟩)
        rw [← h2]
        rfl
      | cons d u'' =>
        rw [List.cons_append] at h2
        injection h2 with h3 h4
        subst h3
        exact Or.inl (List.IsPrefix.isInfix ⟨u'', rfl⟩)
    · rcases ih v hinf with h1 | h2 | h3
      · exact Or.inl (List.infix_cons h1)
      · exact Or.inr (Or.inl h2)
      · rcases h3 with ⟨hgl, hh⟩
        refine Or.inr (Or.inr ⟨?_, hh⟩)
        cases u' with
        | nil => simp at hgl
        | cons d u'' => rw [List.getLast?_cons_cons]; exact hgl

/-- The `".."`-collapsing replace leaves no `".."` in its output
(fuelled). -/
theorem no_ddot_pyReplaceAux : ∀ (f : Nat) (s : Str), s.length ≤ f →
    ¬ (['.', '.'] : Str) <:+: pyReplaceAux ['.', '.'] ['.', ' '] f s := by
  intro f
  induction f with
  | zero =>
    intro s hf
    have hs : s = [] := List.length_eq_zero.mp (Nat.le_zero.mp hf)
    subst hs
    intro h
    rw [show pyReplaceAux ['.', '.'] ['.', ' '] 0 [] = [] from rfl, List.infix_nil] at h
    simp at h
  | succ f ih =>
    intro s hf
    cases s with
    | nil =>
      intro h
      rw [show pyReplaceAux ['.', '.'] ['.', ' '] (f + 1) [] = [] from rfl,
        List.infix_nil] at h
      simp at h
    | cons c cs =>
      simp only [List.length_cons] at hf
      rw [pyReplaceAux]
      by_cases hm : (['.', '.'] : Str) ≠ [] ∧ (['.', '.'] : Str).isPrefixOf (c :: cs) = true
      · rw [if_pos hm]
        intro h
        rcases infix_pair_append _ _ h with h1 | h2 | h3
        · exact absurd h1 (by decide)
        · have hlen : (cs.drop ((['.', '.'] : Str).length - 1)).length ≤ f := by
            have h0 : ((['.', '.'] : Str).length - 1) = 1 := rfl
            rw [h0, List.length_drop]
            omega
          exact ih _ hlen h2
        · exact absurd h3.1 (by decide)
      · rw [if_neg hm]
        intro h
        rw [List.infix_cons_iff] at h
        rcases h with hpre | hinf
        · obtain ⟨t, ht⟩ := hpre
          have ht' : '.' :: '.' :: t = c :: pyReplaceAux ['.', '.'] ['.', ' '] f cs := ht
          injection ht' with h1 h2
          subst h1
          have hh : (pyReplaceAux ['.', '.'] ['.', ' '] f cs).head? = some '.' := by
            rw [← h2]
            rfl
          have hcs : cs.head? = some '.' := by
            rcases head?_pyReplaceAux ['.', '.'] ['.', ' '] (by simp) f cs '.' hh with
              ⟨hpre2, _⟩ | hcs
            · obtain ⟨t2, ht2⟩ := List.isPrefixOf_iff_prefix.mp hpre2
              rw [← ht2]
              rfl
            · exact hcs
          obtain ⟨cs', rfl⟩ : ∃ cs', cs = '.' :: cs' := by
            cases cs with
            | nil => simp at hcs
            | cons d ds =>
              injection hcs with h3
              exact ⟨ds, by rw [h3]⟩
          exact hm ⟨by simp, by simp [List.isPrefixOf]⟩
        · exact ih cs (by omega) hinf

/-- The `".."`-collapsing replace leaves no `".."` in its output. -/
theorem no_ddot_pyReplace (s : Str) :
    ¬ (['.', '.'] : Str) <:+: pyReplace (str "..") (str ". ") s := by
  have e1 : str ".." = ['.', '.'] := rfl
  have e2 : str ". " = ['.', ' '] := rfl
  rw [pyReplace, e1, e2]
  exact no_ddot_pyReplaceAux s.length s le_rfl

/-- A replace whose replacement neither contains `".."` nor starts or
ends with `'.'` preserves `".."`-freeness (fuelled). -/
theorem no_ddot_preservedAux (p r : Str) (hrne : r ≠ [])
    (hrh : r.head? ≠ some '.') (hrl : r.getLast? ≠ some '.')
    (hri : ¬ (['.', '.'] : Str) <:+: r) :
    ∀ (f : Nat) (s : Str), s.length ≤ f → ¬ (['.', '.'] : Str) <:+: s →
      ¬ (['.', '.'] : Str) <:+: pyReplaceAux p r f s := by
  intro f
  induction f with
  | zero => intro s _ hs; exact hs
  | succ f ih =>
    intro s hf hs
    cases s with
    | nil => exact hs
    | cons c cs =>
      simp only [List.length_cons] at hf
      rw [pyReplaceAux]
      by_cases hm : p ≠ [] ∧ p.isPrefixOf (c :: cs) = true
      · rw [if_pos hm]
        intro h
        rcases infix_pair_append _ _ h with h1 | h2 | h3
        · exact hri h1
        · have hdi : ¬ (['.', '.'] : Str) <:+: cs.drop (p.length - 1) := fun hi =>
            hs (List.infix_cons (hi.trans (List.drop_suffix _ _).isInfix))
          have hlen : (cs.drop (p.length - 1)).length ≤ f := by
            have := List.length_drop (p.length - 1) cs
            omega
          exact ih _ hlen hdi h2
        · exact hrl h3.1
      · rw [if_neg hm]
        intro h
        rw [List.infix_cons_iff] at h
        rcases h with hpre | hinf
        · obtain ⟨t, ht⟩ := hpre
          have ht' : '.' :: '.' :: t = c :: pyReplaceAux p r f cs := ht
          injection ht' with h1 h2
          subst h1
          have hh : (pyReplaceAux p r f cs).head? = some '.' := by
            rw [← h2]
            rfl
          rcases head?_pyReplaceAux p r hrne f cs '.' hh with ⟨_, hrh2⟩ | hcs
          · exact hrh hrh2
          · obtain ⟨cs', rfl⟩ : ∃ cs', cs = '.' :: cs' := by
              cases cs with
              | nil => simp at hcs
              | cons d ds =>
                injection hcs with h3
                exact ⟨ds, by rw [h3]⟩
            exact hs (List.IsPrefix.isInfix ⟨cs', rfl⟩)
        · exact ih cs (by omega) (fun hi => hs (List.infix_cons hi)) hinf

/-- `".."`-freeness is preserved by a replace with a dot-safe replacement. -/
theorem no_ddot_preserved (p r s : Str) (hrne : r ≠ [])
    (hrh : r.head? ≠ some '.') (hrl : r.getLast? ≠ some '.')
    (hri : ¬ (['.', '.'] : Str) <:+: r)
    (hs : ¬ (['.', '.'] : Str) <:+: s) :
    ¬ (['.', '.'] : Str) <:+: pyReplace p r s :=
  no_ddot_preservedAux p r hrne hrh hrl hri s.length s le_rfl hs

/-- The head of a `dropWhile` result fails the predicate. -/
theorem head?_dropWhile_false (p : Char → Bool) : ∀ (l : Str) (c : Char),
    (l.dropWhile p).head? = some c → p c = false := by
  intro l
  induction l with
  | nil => intro c h; simp at h
  | cons d ds ih =>
    intro c h
    rw [List.dropWhile_cons] at h
    by_cases hd : p d = true
    · rw [if_pos hd] at h
      exact ih c h
    · rw [if_neg hd] at h
      injection h with h1
      subst h1
      simpa using hd

/-- `dropWhile` does nothing when the head (if any) fails the predicate. -/
theorem dropWhile_eq_self_of_head (p : Char → Bool) (l : Str)
    (h : ∀ c, l.head? = some c → p c = false) : l.dropWhile p = l := by
  cases l with
  | nil => rfl
  | cons c cs =>
    rw [List.dropWhile_cons, h c rfl]
    simp

/-- A nonempty suffix ends where the whole list ends. -/
theorem getLast?_of_suffix {l₁ l₂ : Str} (h : l₁ <:+ l₂) (hne : l₁ ≠ []) :
    l₂.getLast? = l₁.getLast? := by
  obtain ⟨t, rfl⟩ := h
  rw [List.getLast?_append]
  cases hg : l₁.getLast? with
  | none => exact absurd (List.getLast?_eq_none_iff.mp hg) hne
  | some x => rfl

/-- Characters of a stripped string come from the string. -/
theorem mem_pyStrip (s : Str) (a : Char) (h : a ∈ pyStrip s) : a ∈ s := by
  unfold pyStrip at h
  rw [List.mem_reverse] at h
  have h1 := (List.dropWhile_suffix isPySpace).subset h
  rw [List.mem_reverse] at h1
  exact (List.dropWhile_suffix isPySpace).subset h1

/-- The stripped string is a contiguous part of the string. -/
theorem pyStrip_infix_self (s : Str) : pyStrip s <:+: s := by
  have h0 : (s.dropWhile isPySpace).reverse.dropWhile isPySpace <:+
      (s.dropWhile isPySpace).reverse := List.dropWhile_suffix isPySpace
  have h2 := List.reverse_prefix.mpr h0
  rw [List.reverse_reverse] at h2
  exact h2.isInfix.trans (List.dropWhile_suffix isPySpace).isInfix

/-- The last character of a stripped string is not whitespace. -/
theorem pyStrip_getLast (s : Str) : ∀ c, (pyStrip s).getLast? = some c →
    isPySpace c = false := by
  intro c h
  unfold pyStrip at h
  rw [List.getLast?_reverse] at h
  exact head?_dropWhile_false _ _ c h

/-- The first character of a stripped string is not whitespace. -/
theorem pyStrip_head (s : Str) : ∀ c, (pyStrip s).head? = some c →
    isPySpace c = false := by
  intro c h
  unfold pyStrip at h
  rw [List.head?_reverse] at h
  have hne : (s.dropWhile isPySpace).reverse.dropWhile isPySpace ≠ [] := by
    intro he
    rw [he] at h
    simp at h
  have hsfx := getLast?_of_suffix
    (List.dropWhile_suffix (l := (s.dropWhile isPySpace).reverse) isPySpace) hne
  rw [← hsfx, List.getLast?_reverse] at h
  exact head?_dropWhile_false _ _ c h

/-- Stripping is idempotent. -/
theorem pyStrip_idem (s : Str) : pyStrip (pyStrip s) = pyStrip s := by
  rw [show pyStrip (pyStrip s) =
    (((pyStrip s).dropWhile isPySpace).reverse.dropWhile isPySpace).reverse from rfl]
  rw [dropWhile_eq_self_of_head _ _ (pyStrip_head s)]
  rw [dropWhile_eq_self_of_head _ _
    (fun c hc => pyStrip_getLast s c (by rwa [List.head?_reverse] at hc))]
  rw [List.reverse_reverse]

/-- One suffix-trim step only cuts a contiguous part. -/
theorem trim_step_infix_self (p : Str) (n : Nat) (v : Str) :
    (if p.isSuffixOf v = true then pyStrip (v.take (v.length - n)) else v) <:+: v := by
  split
  · exact (pyStrip_infix_self _).trans (List.take_prefix _ _).isInfix
  · exact List.infix_rfl

/-- One suffix-trim step keeps strippedness. -/
theorem trim_step_stripped (p : Str) (n : Nat) (v : Str) (hv : pyStrip v = v) :
    pyStrip (if p.isSuffixOf v = true then pyStrip (v.take (v.length - n)) else v) =
      (if p.isSuffixOf v = true then pyStrip (v.take (v.length - n)) else v) := by
  split
  · exact pyStrip_idem _
  · exact hv

/-- The suffix-trim stage only cuts contiguous parts. -/
theorem cleanTrimSuffixes_infix_self (u : Str) : cleanTrimSuffixes u <:+: u :=
  (trim_step_infix_self (str "aka") 3
    (if (str "(FILMAFFINITY)").isSuffixOf u = true then
      pyStrip (u.take (u.length - 14)) else u)).trans
    (trim_step_infix_self (str "(FILMAFFINITY)") 14 u)

/-- The suffix-trim stage keeps strippedness. -/
theorem cleanTrimSuffixes_stripped (u : Str) (hu : pyStrip u = u) :
    pyStrip (cleanTrimSuffixes u) = cleanTrimSuffixes u :=
  trim_step_stripped (str "aka") 3
    (if (str "(FILMAFFINITY)").isSuffixOf u = true then
      pyStrip (u.take (u.length - 14)) else u)
    (trim_step_stripped (str "(FILMAFFINITY)") 14 u hu)

/-- The suffix-trim stage does nothing when neither suffix is present. -/
theorem cleanTrimSuffixes_id (u : Str)
    (hfa : (str "(FILMAFFINITY)").isSuffixOf u = false)
    (haka : (str "aka").isSuffixOf u = false) : cleanTrimSuffixes u = u := by
  simp only [cleanTrimSuffixes, hfa, haka, Bool.false_eq_true, if_false]

/-- The replace chain removes every double quote. -/
theorem cleanReplacements_no_dquote (s : Str) : '"' ∉ cleanReplacements s := by
  simp only [cleanReplacements]
  intro hmem
  have h := mem_pyStrip _ _ hmem
  have h := (mem_pyReplace _ _ _ _ h).resolve_right (by decide)
  have h := (mem_pyReplace _ _ _ _ h).resolve_right (by decide)
  have h := (mem_pyReplace _ _ _ _ h).resolve_right (by decide)
  have h := (mem_pyReplace _ _ _ _ h).resolve_right (by decide)
  have h := (mem_pyReplace _ _ _ _ h).resolve_right (by decide)
  have h := (mem_pyReplace _ _ _ _ h).resolve_right (by decide)
  have h := (mem_pyReplace _ _ _ _ h).resolve_right (by decide)
  have h := (mem_pyReplace _ _ _ _ h).resolve_right (by decide)
  have h := (mem_pyReplace _ _ _ _ h).resolve_right (by decide)
  exact notMem_pyReplace_elim _ _ _ _ rfl (by decide) h

/-- The replace chain removes every apostrophe. -/
theorem cleanReplacements_no_squote (s : Str) : '\'' ∉ cleanReplacements s := by
  simp only [cleanReplacements]
  intro hmem
  have h := mem_pyStrip _ _ hmem
  have h := (mem_pyReplace _ _ _ _ h).resolve_right (by decide)
  have h := (mem_pyReplace _ _ _ _ h).resolve_right (by decide)
  have h := (mem_pyReplace _ _ _ _ h).resolve_right (by decide)
  have h := (mem_pyReplace _ _ _ _ h).resolve_right (by decide)
  have h := (mem_pyReplace _ _ _ _ h).resolve_right (by decide)
  have h := (mem_pyReplace _ _ _ _ h).resolve_right (by decide)
  have h := (mem_pyReplace _ _ _ _ h).resolve_right (by decide)
  have h := (mem_pyReplace _ _ _ _ h).resolve_right (by decide)
  exact notMem_pyReplace_elim _ _ _ _ rfl (by decide) h

/-- The replace chain removes every left double quotation mark. -/
theorem cleanReplacements_no_ldquo (s : Str) : '“' ∉ cleanReplacements s := by
  simp only [cleanReplacements]
  intro hmem
  have h := mem_pyStrip _ _ hmem
  have h := (mem_pyReplace _ _ _ _ h).resolve_right (by decide)
  have h := (mem_pyReplace _ _ _ _ h).resolve_right (by decide)
  have h := (mem_pyReplace _ _ _ _ h).resolve_right (by decide)
  exact notMem_pyReplace_elim _ _ _ _ rfl (by decide) h

/-- The replace chain leaves no two adjacent periods. -/
theorem cleanReplacements_no_ddot (s : Str) :
    ¬ (['.', '.'] : Str) <:+: cleanReplacements s := by
  simp only [cleanReplacements]
  intro h
  have h := h.trans (pyStrip_infix_self _)
  exact no_ddot_preserved _ _ _ (by decide) (by decide) (by decide) (by decide)
    (no_ddot_preserved _ _ _ (by decide) (by decide) (by decide) (by decide)
      (no_ddot_pyReplace _)) h

/-- Invariants of every cleaned string: no quote characters, no adjacent
periods, stripped. -/
theorem clean_string_invariants (s : Str) :
    '"' ∉ clean_string s ∧ '\'' ∉ clean_string s ∧ '“' ∉ clean_string s ∧
      ¬ (['.', '.'] : Str) <:+: clean_string s ∧
      pyStrip (clean_string s) = clean_string s := by
  have hinf : clean_string s <:+: cleanReplacements s := cleanTrimSuffixes_infix_self _
  refine ⟨fun h => cleanReplacements_no_dquote s (hinf.subset h),
    fun h => cleanReplacements_no_squote s (hinf.subset h),
    fun h => cleanReplacements_no_ldquo s (hinf.subset h),
    fun h => cleanReplacements_no_ddot s (h.trans hinf),
    cleanTrimSuffixes_stripped _ (pyStrip_idem _)⟩

/-- Claim C5 (amended): the cleaning pipeline is idempotent on every input
whose cleaned output has no two adjacent spaces, no `" ,"`, no `" (…) "`,
and does not end with `"aka"` or `"(FILMAFFINITY)"`; in general
idempotence fails (see the counterexample). -/
theorem claim_C5_clean_string_conditionally_idempotent (s : Str)
    (h1 : isSubstring (str "  ") (clean_string s) = false)
    (h2 : isSubstring (str " ,") (clean_string s) = false)
    (h3 : isSubstring (str " (…) ") (clean_string s) = false)
    (h4 : (str "aka").isSuffixOf (clean_string s) = false)
    (h5 : (str "(FILMAFFINITY)").isSuffixOf (clean_string s) = false) :
    clean_string (clean_string s) = clean_string s := by
  obtain ⟨hq, ha, hl, hdd, hst⟩ := clean_string_invariants s
  set t := clean_string s with ht
  have e1 : pyReplace (str "\"") (str " ") t = t :=
    pyReplace_eq_self_of_char _ _ _ '"' (by decide) hq
  have e2 : pyReplace (str "'") (str " ") t = t :=
    pyReplace_eq_self_of_char _ _ _ '\'' (by decide) ha
  have e3 : pyReplace (str "',") (str ", ") t = t :=
    pyReplace_eq_self_of_char _ _ _ '\'' (by decide) ha
  have e4 : pyReplace (str "'") (str "") t = t :=
    pyReplace_eq_self_of_char _ _ _ '\'' (by decide) ha
  have e5 : pyReplace (str " (...) ") (str ". ") t = t :=
    pyReplace_eq_self _ _ _
      (fun hi => hdd ((by decide : (['.', '.'] : Str) <:+: str " (...) ").trans hi))
  have e6 : pyReplace (str " (…) ") (str ". ") t = t :=
    pyReplace_eq_self _ _ _ ((isSubstring_eq_false_iff _ _).mp h3)
  have e7 : pyReplace (str "“") (str "") t = t :=
    pyReplace_eq_self_of_char _ _ _ '“' (by decide) hl
  have e8 : pyReplace (str "..") (str ". ") t = t :=
    pyReplace_eq_self _ _ _ (by
      intro hi
      have e : str ".." = (['.', '.'] : Str) := rfl
      rw [e] at hi
      exact hdd hi)
  have e9 : pyReplace (str " ,") (str ", ") t = t :=
    pyReplace_eq_self _ _ _ ((isSubstring_eq_false_iff _ _).mp h2)
  have e10 : pyReplace (str "  ") (str " ") t = t :=
    pyReplace_eq_self _ _ _ ((isSubstring_eq_false_iff _ _).mp h1)
  have hrepl : cleanReplacements t = t := by
    simp only [cleanReplacements, e1, e2, e3, e4, e5, e6, e7, e8, e9, e10, hst]
  show cleanTrimSuffixes (cleanReplacements t) = t
  rw [hrepl]
  exact cleanTrimSuffixes_id t h5 h4

/-- Claim C5 (counterexample): cleaning is not idempotent — a run of four
spaces collapses to two spaces in one pass and to one space only in a
second pass. -/
theorem claim_C5_counterexample :
    clean_string (clean_string (str "a    a")) ≠ clean_string (str "a    a") ∧
      clean_string (str "a    a") = str "a  a" ∧
      clean_string (clean_string (str "a    a")) = str "a a" := by
  exact ⟨by decide, by decide, by decide⟩

/-- Witness for the amended C5. -/
theorem claim_C5_witness :
    clean_string (clean_string (str "A story, well told.")) =
      clean_string (str "A story, well told.") :=
  claim_C5_clean_string_conditionally_idempotent (str "A story, well told.")
    (by decide) (by decide) (by decide) (by decide) (by decide)
